import Mathlib

/-!
# Verification of the pacbundle bundle-resolution engine

A shallow embedding of `src/pacbundle/main.py`: the identifier classifier,
the inclusion evaluator, the bundle-graph expander (`expand_bundles`), the
package materializer (`get_packages`), and the set-difference reconciliation
driving `compare`, `sync` and `install`.

Conventions of the embedding:
* Python strings are `String`; Python sets of strings are `Finset String`
  except for the `bundle_names` visited set of `expand_bundles`, which is
  modelled as a duplicate-free `List String` (membership tests are identical,
  and a list gives the callers a concrete iteration order -- Python's set
  iteration order is unspecified, so any fixed order is a faithful choice).
* The worklist `bundle_names_to_search` pops from the END of a Python list;
  here the stack is kept top-first, so Python's `pop()` is taking the head, and
  appending the members of a bundle one by one becomes prepending the reversed
  member list.
* Effectful failure is `Except Err`: a raised `typer.Exit` after printing a
  message is `Err.exit code message`, and an uncaught Python `KeyError` from a
  dict subscript is `Err.keyError key`.
* The external world (shell exit codes for `include` commands, the cached
  `pacman -Qg` group map, the `pacman -Qe` / `pacman -Q` snapshots) is an
  explicit `Env` record passed to the functions that query it.
-/

/-- Fatal outcomes of the Python code: `exit` is a raised `typer.Exit(code)`
preceded by printing `message`; `keyError` is an uncaught `KeyError` escaping
from a dict subscript. -/
inductive Err where
  | exit (code : Nat) (message : String)
  | keyError (key : String)
  deriving DecidableEq, Repr

/-- `class Bundle(BaseModel)`: `members: list[str]`, `include: str | None`.
The field `include` is named `include?` because `include` is a Lean keyword. -/
structure Bundle where
  members : List String
  include? : Option String := none
  deriving DecidableEq, Repr

/-- `class Settings(BaseModel)`: `install_command: str = "sudo pacman -S"`. -/
structure Settings where
  install_command : String := "sudo pacman -S"
  deriving DecidableEq, Repr

/-- `class Config(BaseModel)`: `bundles: dict[str, Bundle]`, modelled as an
association list (keys unique in any parsed TOML config). -/
structure Config where
  bundles : List (String × Bundle) := []
  settings : Settings := {}
  deriving DecidableEq, Repr

/-- Python dict subscript / `in` test over the association-list model. -/
def dict_lookup {β : Type} (l : List (String × β)) (k : String) : Option β :=
  match l with
  | [] => none
  | (k', v) :: rest => if k' = k then some v else dict_lookup rest k

/-- Python `s.startswith(pre)`, stated on the character lists of the strings
(equivalent to `String.startsWith`, but reducible by the kernel). -/
def str_startswith (s pre : String) : Bool :=
  pre.data.isPrefixOf s.data

/-- Python `s[n:]`: drop the first `n` characters (Python slices count code
points, as does dropping from the character list). -/
def str_drop (s : String) (n : Nat) : String :=
  String.mk (s.data.drop n)

/-- `identifier_type`: `#` prefix is a bundle, `g#` prefix a group, otherwise
a package (the code tests `startswith("#")` first, and `"g#..."` does not
start with `"#"`). -/
def identifier_type (identifier : String) : String :=
  if str_startswith identifier "#" then "bundle"
  else if str_startswith identifier "g#" then "group"
  else "package"

/-- The stripped names of the Bundle-typed members of a bundle, in member
order: the `member[1:]` pushed by the loops of `expand_bundles` and shown by
`list`. -/
def bundle_member_names (b : Bundle) : List String :=
  (b.members.filter (fun m => identifier_type m = "bundle")).map (fun m => str_drop m 1)

/-- The keys of `config.bundles` as a finite set (used as the termination
measure of the expansion loop). -/
def config_keys (cfg : Config) : Finset String :=
  (cfg.bundles.map Prod.fst).toFinset

theorem dict_lookup_mem {β : Type} {l : List (String × β)} {k : String} {v : β}
    (h : dict_lookup l k = some v) : k ∈ l.map Prod.fst := by
  induction l with
  | nil => simp [dict_lookup] at h
  | cons p rest ih =>
    rw [dict_lookup] at h
    by_cases hk : p.1 = k
    · simp [hk]
    · simp only [hk, if_false] at h
      simp [ih h]

theorem mem_config_keys_of_lookup {cfg : Config} {k : String} {b : Bundle}
    (h : dict_lookup cfg.bundles k = some b) : k ∈ config_keys cfg := by
  simpa [config_keys] using dict_lookup_mem h

theorem card_unvisited_cons_lt (cfg : Config) (visited : List String)
    (name : String) (hmem : name ∈ config_keys cfg) (hnot : name ∉ visited) :
    (config_keys cfg \ (name :: visited).toFinset).card
      < (config_keys cfg \ visited.toFinset).card := by
  apply Finset.card_lt_card
  have hsub : config_keys cfg \ (name :: visited).toFinset
      ⊆ config_keys cfg \ visited.toFinset := by
    apply Finset.sdiff_subset_sdiff (le_refl _)
    intro x hx
    simp only [List.toFinset_cons, Finset.mem_insert]
    exact Or.inr hx
  rw [Finset.ssubset_iff_of_subset hsub]
  refine ⟨name, ?_, ?_⟩
  · simp [Finset.mem_sdiff, hmem, hnot]
  · simp

/-- The loop of `expand_bundles`: pop a name, skip it if visited, fail with
`typer.Exit(1)` (after printing a message naming it) if it is not a config
key, otherwise record it and push the stripped names of its Bundle-typed
members. Terminates because each step either consumes a stack entry or
strictly shrinks the set of unvisited config keys. -/
def expand_loop (cfg : Config) : List String → List String → Except Err (List String)
  | [], visited => .ok visited
  | name :: rest, visited =>
    if name ∈ visited then
      expand_loop cfg rest visited
    else
      match h : dict_lookup cfg.bundles name with
      | none => .error (.exit 1 ("There is no bundle called " ++ name))
      | some b =>
          expand_loop cfg ((bundle_member_names b).reverse ++ rest) (name :: visited)
  termination_by stack visited => ((config_keys cfg \ visited.toFinset).card, stack.length)
  decreasing_by
  · apply Prod.Lex.right
    simp
  · apply Prod.Lex.left
    exact card_unvisited_cons_lt cfg visited name
      (mem_config_keys_of_lookup h) (by assumption)

/-- `expand_bundles(bundle_names_to_search, config)`. -/
def expand_bundles (seeds : List String) (cfg : Config) : Except Err (List String) :=
  expand_loop cfg seeds []

/-- The cached result of `pacman_groups()`: group name to the packages of the
group (a Python `dict[str, set[str]]`; the set is kept as a list, its
unspecified iteration order made concrete). -/
def Groups : Type := List (String × List String)

/-- The member loop of `get_packages`: a group member looks its stripped name
up in `pacman_groups()`; when the name is missing the code prints an error and
builds `typer.Exit(1)` WITHOUT raising it (the `raise` keyword is absent in
the source), so control falls through to the dict subscript
`pacman_groups()[group_name]`, which raises `KeyError`; a package member is
appended as is; a bundle member is skipped. -/
def get_packages_loop (groups : Groups) : List String → Except Err (List String)
  | [] => .ok []
  | m :: rest =>
    if identifier_type m = "group" then
      match dict_lookup groups (str_drop m 2) with
      | none => .error (.keyError (str_drop m 2))
      | some ps => do
          let r ← get_packages_loop groups rest
          .ok (ps ++ r)
    else if identifier_type m = "package" then do
      let r ← get_packages_loop groups rest
      .ok (m :: r)
    else
      get_packages_loop groups rest

/-- `get_packages(bundle)`. -/
def get_packages (b : Bundle) (groups : Groups) : Except Err (List String) :=
  get_packages_loop groups b.members

/-- The set comprehension `{package for bundle_name in all_bundle_names for
package in get_packages(config.bundles[bundle_name])}`: the dict subscript
raises `KeyError` on a missing key, and any error of `get_packages`
propagates. -/
def materialize : List String → Config → Groups → Except Err (Finset String)
  | [], _, _ => .ok ∅
  | n :: rest, cfg, groups =>
    match dict_lookup cfg.bundles n with
    | none => .error (.keyError n)
    | some b => do
        let ps ← get_packages b groups
        let acc ← materialize rest cfg groups
        .ok (ps.toFinset ∪ acc)

/-- The external state a run of the tool queries: the exit codes the shell
gives to `include` commands (`subprocess.run(..., shell=True).returncode`),
the cached `pacman -Qg` group map, the `pacman -Qe` explicit snapshot and the
`pacman -Q` installed snapshot. -/
structure Env where
  exitCode : String → Int
  groups : Groups
  explicit : Finset String
  installed : Finset String

/-- `Bundle.is_included`: `self.include is not None and subprocess.run(
self.include, shell=True, check=False).returncode == 0`. -/
def is_included (b : Bundle) (exitCode : String → Int) : Bool :=
  match b.include? with
  | none => false
  | some cmd => exitCode cmd == 0

/-- `get_all_specified_packages()`: seed with the bundle names whose
`is_included` holds, expand, and materialize the closure. -/
def get_all_specified_packages (cfg : Config) (env : Env) : Except Err (Finset String) := do
  let seeds := (cfg.bundles.filter (fun p => is_included p.2 env.exitCode)).map Prod.fst
  let names ← expand_bundles seeds cfg
  materialize names cfg env.groups

/-- The action sets computed by `install_or_mark_explicit(packages)`: the
argument minus the explicit snapshot, split by the installed snapshot into
the packages handed to the install command and the packages marked explicit. -/
def install_or_mark_explicit (packages explicit installed : Finset String) :
    Finset String × Finset String :=
  let p := packages \ explicit
  (p \ installed, p ∩ installed)

/-- The plan a run of `sync_packages` computes before applying it:
`(to_install, to_mark_explicit, to_mark_dependency)`.
`installed_but_not_specified` is demoted to dependency, and
`specified_but_not_installed` is passed to `install_or_mark_explicit`. -/
def sync_plan (all_packages explicit installed : Finset String) :
    Finset String × Finset String × Finset String :=
  let installed_but_not_specified := explicit \ all_packages
  let specified_but_not_installed := all_packages \ explicit
  let im := install_or_mark_explicit specified_but_not_installed explicit installed
  (im.1, im.2, installed_but_not_specified)

/-- The exit code of `compare_packages_difference` as a function of the
desired and the explicitly-installed package sets: `typer.Exit(10)` is raised
iff `installed_but_not_specified or specified_but_not_installed`, and falling
off the end of the command is exit 0. -/
def compare_exit_code (all_packages explicit : Finset String) : Nat :=
  let installed_but_not_specified := explicit \ all_packages
  let specified_but_not_installed := all_packages \ explicit
  if installed_but_not_specified.Nonempty ∨ specified_but_not_installed.Nonempty
  then 10 else 0

/-- `install_bundle(name)` up to the point where actions run: unknown name is
`typer.Exit(1)`; otherwise the closure of `[name]` is expanded and
materialized, and `install_or_mark_explicit(all_packages)` determines the
actions (when `all_packages - explicit` is empty the command exits 0 having
run no action, which coincides with the empty action pair computed here).
The result is `(to_install, to_mark_explicit)`. -/
def install_bundle_plan (cfg : Config) (name : String) (env : Env) :
    Except Err (Finset String × Finset String) :=
  match dict_lookup cfg.bundles name with
  | none => .error (.exit 1 ("Bundle " ++ name ++ " does not exist in config."))
  | some _ => do
      let names ← expand_bundles [name] cfg
      let all_packages ← materialize names cfg env.groups
      .ok (install_or_mark_explicit all_packages env.explicit env.installed)

theorem install_or_mark_explicit_eq (p e i : Finset String) :
    install_or_mark_explicit p e i = ((p \ e) \ i, (p \ e) ∩ i) := rfl

theorem sync_plan_eq (d e i : Finset String) :
    sync_plan d e i = (((d \ e) \ e) \ i, ((d \ e) \ e) ∩ i, e \ d) := rfl

theorem compare_exit_code_eq (d e : Finset String) :
    compare_exit_code d e
      = if (e \ d).Nonempty ∨ (d \ e).Nonempty then 10 else 0 := rfl

/-- C1: the reconciliation computed by `sync_packages` and
`install_or_mark_explicit` satisfies the partition laws:
`to_install = (desired - actual_explicit) - actual_all`,
`to_mark_explicit = (desired - actual_explicit) ∩ actual_all`, the two are
disjoint, their union is `desired - actual_explicit`, and
`to_mark_dependency = actual_explicit - desired`; and on Scenario D
(`desired={git,vim}`, `actual_explicit={vim,emacs}`,
`actual_all={vim,emacs,git}`) the plan is
`to_install=∅`, `to_mark_explicit={git}`, `to_mark_dependency={emacs}`. -/
theorem sync_plan_partition_laws (desired explicit installed : Finset String) :
    (sync_plan desired explicit installed).1 = (desired \ explicit) \ installed
    ∧ (sync_plan desired explicit installed).2.1 = (desired \ explicit) ∩ installed
    ∧ Disjoint (sync_plan desired explicit installed).1
        (sync_plan desired explicit installed).2.1
    ∧ (sync_plan desired explicit installed).1
        ∪ (sync_plan desired explicit installed).2.1 = desired \ explicit
    ∧ (sync_plan desired explicit installed).2.2 = explicit \ desired
    ∧ sync_plan {"git", "vim"} {"vim", "emacs"} {"vim", "emacs", "git"}
        = (∅, {"git"}, {"emacs"}) := by
  refine ⟨?_, ?_, ?_, ?_, ?_, by decide⟩
  · rw [sync_plan_eq]
    ext x
    simp only [Finset.mem_sdiff]
    tauto
  · rw [sync_plan_eq]
    ext x
    simp only [Finset.mem_inter, Finset.mem_sdiff]
    tauto
  · rw [sync_plan_eq, Finset.disjoint_left]
    intro x hx hx'
    simp only [Finset.mem_inter, Finset.mem_sdiff] at hx hx'
    tauto
  · rw [sync_plan_eq]
    ext x
    simp only [Finset.mem_union, Finset.mem_inter, Finset.mem_sdiff]
    tauto
  · rw [sync_plan_eq]

/-- C7: `compare` exits 10 iff some package is desired but not explicitly
installed or explicitly installed but not desired, and exits 0 when the two
sets agree. -/
theorem compare_exit_code_spec (desired explicit : Finset String) :
    (compare_exit_code desired explicit = 10
      ↔ ∃ p, (p ∈ desired ∧ p ∉ explicit) ∨ (p ∈ explicit ∧ p ∉ desired))
    ∧ (desired = explicit → compare_exit_code desired explicit = 0) := by
  have hiff : ((explicit \ desired).Nonempty ∨ (desired \ explicit).Nonempty)
      ↔ ∃ p, (p ∈ desired ∧ p ∉ explicit) ∨ (p ∈ explicit ∧ p ∉ desired) := by
    simp only [Finset.Nonempty, Finset.mem_sdiff]
    constructor
    · rintro (⟨p, hp⟩ | ⟨p, hp⟩)
      · exact ⟨p, Or.inr hp⟩
      · exact ⟨p, Or.inl hp⟩
    · rintro ⟨p, hp | hp⟩
      · exact Or.inr ⟨p, hp⟩
      · exact Or.inl ⟨p, hp⟩
  constructor
  · rw [compare_exit_code_eq]
    split_ifs with h
    · exact iff_of_true rfl (hiff.mp h)
    · exact iff_of_false (by decide) (fun hex => h (hiff.mpr hex))
  · intro h
    subst h
    rw [compare_exit_code_eq]
    simp

/-- C8: sync is idempotent: if after a run the explicit set becomes
`(explicit - to_mark_dependency) ∪ to_install ∪ to_mark_explicit` and the
installed set grows by `to_install`, then the plan recomputed from the same
desired set is `(∅, ∅, ∅)` — the "Nothing to do" branch. -/
theorem sync_plan_idempotent (desired explicit installed : Finset String) :
    sync_plan desired
      ((explicit \ (sync_plan desired explicit installed).2.2
        ∪ (sync_plan desired explicit installed).1)
        ∪ (sync_plan desired explicit installed).2.1)
      (installed ∪ (sync_plan desired explicit installed).1)
    = (∅, ∅, ∅) := by
  have hE : (explicit \ (sync_plan desired explicit installed).2.2
        ∪ (sync_plan desired explicit installed).1)
        ∪ (sync_plan desired explicit installed).2.1 = desired := by
    simp only [sync_plan_eq]
    ext x
    simp only [Finset.mem_union, Finset.mem_sdiff, Finset.mem_inter]
    tauto
  rw [hE, sync_plan_eq]
  simp

/-- C6: `is_included` is `false` when `include` is unset, and otherwise is
`true` iff the shell gave the include command exit code exactly 0; a nonzero
exit code yields `false` (and the embedding is a total function: no outcome
raises). -/
theorem is_included_spec (b : Bundle) (exitCode : String → Int) :
    (b.include? = none → is_included b exitCode = false)
    ∧ (∀ cmd, b.include? = some cmd →
        ((is_included b exitCode = true ↔ exitCode cmd = 0)
         ∧ (exitCode cmd ≠ 0 → is_included b exitCode = false))) := by
  constructor
  · intro h
    simp [is_included, h]
  · intro cmd h
    constructor
    · simp [is_included, h]
    · intro hne
      simp [is_included, h, hne]

/-- `is_included` evaluated concretely: unset include is excluded, and an
include command on which the shell exits 1 is excluded. -/
theorem is_included_spec_witness :
    is_included ⟨[], none⟩ (fun _ => 0) = false
    ∧ is_included ⟨[], some "false"⟩ (fun _ => 1) = false :=
  ⟨(is_included_spec ⟨[], none⟩ (fun _ => 0)).1 rfl,
   ((is_included_spec ⟨[], some "false"⟩ (fun _ => 1)).2 "false" rfl).2 (by decide)⟩

theorem expand_loop_nil (cfg : Config) (visited : List String) :
    expand_loop cfg [] visited = .ok visited := by
  rw [expand_loop]

theorem expand_loop_cons_mem {cfg : Config} {name : String} {rest visited : List String}
    (h : name ∈ visited) :
    expand_loop cfg (name :: rest) visited = expand_loop cfg rest visited := by
  rw [expand_loop]
  simp [h]

theorem expand_loop_cons_none {cfg : Config} {name : String} {rest visited : List String}
    (h1 : name ∉ visited) (h2 : dict_lookup cfg.bundles name = none) :
    expand_loop cfg (name :: rest) visited
      = .error (.exit 1 ("There is no bundle called " ++ name)) := by
  rw [expand_loop]
  simp only [h1, if_false]
  split
  · rfl
  · rename_i b heq
    rw [h2] at heq
    cases heq

theorem expand_loop_cons_some {cfg : Config} {name : String} {rest visited : List String}
    {b : Bundle} (h1 : name ∉ visited) (h2 : dict_lookup cfg.bundles name = some b) :
    expand_loop cfg (name :: rest) visited
      = expand_loop cfg ((bundle_member_names b).reverse ++ rest) (name :: visited) := by
  rw [expand_loop]
  simp only [h1, if_false]
  split
  · rename_i heq
    rw [h2] at heq
    cases heq
  · rename_i b' heq
    rw [h2] at heq
    cases heq
    rfl

theorem expand_loop_ok_mem (cfg : Config) (stack visited : List String) (S : List String)
    (h : expand_loop cfg stack visited = .ok S) :
    (∀ n ∈ visited, n ∈ S) ∧ (∀ n ∈ stack, n ∈ S) := by
  induction stack, visited using expand_loop.induct cfg with
  | case1 visited =>
    rw [expand_loop_nil] at h
    cases h
    exact ⟨fun n hn => hn, by simp⟩
  | case2 name rest visited hmem ih =>
    rw [expand_loop_cons_mem hmem] at h
    obtain ⟨h1, h2⟩ := ih h
    refine ⟨h1, fun n hn => ?_⟩
    rcases List.mem_cons.mp hn with rfl | hn
    · exact h1 n hmem
    · exact h2 n hn
  | case3 name rest visited hnot hnone =>
    rw [expand_loop_cons_none hnot hnone] at h
    cases h
  | case4 name rest visited hnot b hlk ih =>
    rw [expand_loop_cons_some hnot hlk] at h
    obtain ⟨h1, h2⟩ := ih h
    refine ⟨fun n hn => h1 n (List.mem_cons_of_mem _ hn), fun n hn => ?_⟩
    rcases List.mem_cons.mp hn with rfl | hn
    · exact h1 n (List.mem_cons_self n visited)
    · exact h2 n (List.mem_append_right _ hn)

theorem expand_loop_ok_keys (cfg : Config) (stack visited : List String) (S : List String)
    (hv : ∀ n ∈ visited, n ∈ config_keys cfg)
    (h : expand_loop cfg stack visited = .ok S) :
    ∀ n ∈ S, n ∈ config_keys cfg := by
  induction stack, visited using expand_loop.induct cfg with
  | case1 visited =>
    rw [expand_loop_nil] at h
    cases h
    exact hv
  | case2 name rest visited hmem ih =>
    rw [expand_loop_cons_mem hmem] at h
    exact ih hv h
  | case3 name rest visited hnot hnone =>
    rw [expand_loop_cons_none hnot hnone] at h
    cases h
  | case4 name rest visited hnot b hlk ih =>
    rw [expand_loop_cons_some hnot hlk] at h
    refine ih (fun n hn => ?_) h
    rcases List.mem_cons.mp hn with rfl | hn
    · exact mem_config_keys_of_lookup hlk
    · exact hv n hn

theorem expand_loop_ok_closed (cfg : Config) (stack visited : List String) (S : List String)
    (hinv : ∀ n ∈ visited, ∀ b, dict_lookup cfg.bundles n = some b →
        ∀ m ∈ bundle_member_names b, m ∈ visited ∨ m ∈ stack)
    (h : expand_loop cfg stack visited = .ok S) :
    ∀ n ∈ S, ∀ b, dict_lookup cfg.bundles n = some b →
      ∀ m ∈ bundle_member_names b, m ∈ S := by
  induction stack, visited using expand_loop.induct cfg with
  | case1 visited =>
    rw [expand_loop_nil] at h
    cases h
    intro n hn b hb m hm
    rcases hinv n hn b hb m hm with hm' | hm'
    · exact hm'
    · cases hm'
  | case2 name rest visited hmem ih =>
    rw [expand_loop_cons_mem hmem] at h
    refine ih (fun n hn b hb m hm => ?_) h
    rcases hinv n hn b hb m hm with hm' | hm'
    · exact Or.inl hm'
    · rcases List.mem_cons.mp hm' with rfl | hm''
      · exact Or.inl hmem
      · exact Or.inr hm''
  | case3 name rest visited hnot hnone =>
    rw [expand_loop_cons_none hnot hnone] at h
    cases h
  | case4 name rest visited hnot b hlk ih =>
    rw [expand_loop_cons_some hnot hlk] at h
    refine ih (fun n hn b' hb' m hm => ?_) h
    rcases List.mem_cons.mp hn with rfl | hn
    · rw [hlk] at hb'
      injection hb' with hbb
      subst hbb
      exact Or.inr (List.mem_append_left _ (List.mem_reverse.mpr hm))
    · rcases hinv n hn b' hb' m hm with hm' | hm'
      · exact Or.inl (List.mem_cons_of_mem _ hm')
      · rcases List.mem_cons.mp hm' with rfl | hm''
        · exact Or.inl (List.mem_cons_self m visited)
        · exact Or.inr (List.mem_append_right _ hm'')

theorem expand_loop_error (cfg : Config) (stack visited : List String) (e : Err)
    (h : expand_loop cfg stack visited = .error e) :
    ∃ n, e = .exit 1 ("There is no bundle called " ++ n)
      ∧ dict_lookup cfg.bundles n = none := by
  induction stack, visited using expand_loop.induct cfg with
  | case1 visited =>
    rw [expand_loop_nil] at h
    cases h
  | case2 name rest visited hmem ih =>
    rw [expand_loop_cons_mem hmem] at h
    exact ih h
  | case3 name rest visited hnot hnone =>
    rw [expand_loop_cons_none hnot hnone] at h
    injection h with he
    exact ⟨name, he.symm, hnone⟩
  | case4 name rest visited hnot b hlk ih =>
    rw [expand_loop_cons_some hnot hlk] at h
    exact ih h

/-- The names expansion can reach from a seed list: the seeds themselves, and
the stripped Bundle-typed member names of any reached name that is a config
key. -/
inductive Reached (cfg : Config) (seeds : List String) : String → Prop where
  | seed {n : String} : n ∈ seeds → Reached cfg seeds n
  | step {n m : String} {b : Bundle} : Reached cfg seeds n →
      dict_lookup cfg.bundles n = some b → m ∈ bundle_member_names b →
      Reached cfg seeds m

theorem expand_bundles_ok_reached {cfg : Config} {seeds S : List String}
    (h : expand_bundles seeds cfg = .ok S) :
    ∀ n, Reached cfg seeds n → n ∈ S := by
  intro n hr
  induction hr with
  | seed hn => exact (expand_loop_ok_mem cfg seeds [] S h).2 _ hn
  | step hr hlk hm ih =>
    exact expand_loop_ok_closed cfg seeds [] S (by simp) h _ ih _ hlk _ hm

/-- Scenario B config: bundle `a = ["#a"]` (self-reference). -/
def cfg_self : Config := ⟨[("a", ⟨["#a"], none⟩)], {}⟩

/-- Scenario C config: bundle `x = ["#y"]` with `y` undefined. -/
def cfg_undef : Config := ⟨[("x", ⟨["#y"], none⟩)], {}⟩

/-- Scenario A config: `base = ["git", "#editors"]`,
`editors = ["vim", "g#devtools"]`. -/
def cfg_scenario_a : Config :=
  ⟨[("base", ⟨["git", "#editors"], none⟩), ("editors", ⟨["vim", "g#devtools"], none⟩)], {}⟩

/-- Scenario A group map: `devtools ↦ {gcc, make}`. -/
def groups_scenario_a : Groups := [("devtools", ["gcc", "make"])]

/-- C3: `expand_bundles` always terminates — it is a total function, accepted
by well-founded recursion on the pair (unvisited config keys, worklist
length), with no restriction on cyclic or self-referential configs — and
whenever it returns a set, that set contains every seed name; on the
self-referential Scenario B config, `expand_bundles ["a"]` returns exactly
`{"a"}` rather than looping. -/
theorem expand_bundles_terminates_contains_seeds :
    (∀ (cfg : Config) (seeds S : List String),
        expand_bundles seeds cfg = .ok S → ∀ n ∈ seeds, n ∈ S)
    ∧ expand_bundles ["a"] cfg_self = .ok ["a"] := by
  constructor
  · intro cfg seeds S h n hn
    exact (expand_loop_ok_mem cfg seeds [] S h).2 n hn
  · have h1 : bundle_member_names ⟨["#a"], none⟩ = ["a"] := by decide
    simp [cfg_self, expand_bundles, expand_loop, dict_lookup, h1]

/-- `expand_bundles` on the Scenario B config, concretely: the seed `a` is in
the result. -/
theorem expand_bundles_terminates_contains_seeds_witness :
    "a" ∈ (["a"] : List String) :=
  expand_bundles_terminates_contains_seeds.1 cfg_self ["a"] ["a"]
    expand_bundles_terminates_contains_seeds.2 "a" (by simp)

/-- C9: a successful expansion is sound and closed: every returned name is a
key of `config.bundles`, and every stripped Bundle-typed member name of a
returned bundle is itself returned. -/
theorem expand_bundles_sound_closed (cfg : Config) (seeds S : List String)
    (h : expand_bundles seeds cfg = .ok S) :
    (∀ n ∈ S, n ∈ config_keys cfg)
    ∧ (∀ n ∈ S, ∀ b, dict_lookup cfg.bundles n = some b →
        ∀ m ∈ bundle_member_names b, m ∈ S) :=
  ⟨expand_loop_ok_keys cfg seeds [] S (by simp) h,
   expand_loop_ok_closed cfg seeds [] S (by simp) h⟩

/-- Soundness and closedness on the concrete Scenario B run. -/
theorem expand_bundles_sound_closed_witness :
    (∀ n ∈ (["a"] : List String), n ∈ config_keys cfg_self)
    ∧ (∀ n ∈ (["a"] : List String), ∀ b, dict_lookup cfg_self.bundles n = some b →
        ∀ m ∈ bundle_member_names b, m ∈ (["a"] : List String)) :=
  expand_bundles_sound_closed cfg_self ["a"] ["a"] (by
    have h1 : bundle_member_names ⟨["#a"], none⟩ = ["a"] := by decide
    simp [cfg_self, expand_bundles, expand_loop, dict_lookup, h1])

/-- C4: if expansion reaches a name that is not a config key, the whole call
fails: the result is an error (no partial set), the error is `typer.Exit(1)`,
and its printed message names an identifier that is missing from the config;
on the Scenario C config (`x = ["#y"]`, `y` undefined) the message names `y`. -/
theorem expand_bundles_undefined_fails :
    (∀ (cfg : Config) (seeds : List String) (n : String),
        Reached cfg seeds n → n ∉ config_keys cfg →
        ∃ e, expand_bundles seeds cfg = .error e
          ∧ ∃ m, e = .exit 1 ("There is no bundle called " ++ m)
            ∧ dict_lookup cfg.bundles m = none)
    ∧ expand_bundles ["x"] cfg_undef
        = .error (.exit 1 "There is no bundle called y") := by
  constructor
  · intro cfg seeds n hr hk
    cases he : expand_bundles seeds cfg with
    | ok S =>
        exfalso
        have hnS := expand_bundles_ok_reached he n hr
        exact hk (expand_loop_ok_keys cfg seeds [] S (by simp) he n hnS)
    | error e =>
        exact ⟨e, rfl, expand_loop_error cfg seeds [] e he⟩
  · have h1 : bundle_member_names ⟨["#y"], none⟩ = ["y"] := by decide
    simp [cfg_undef, expand_bundles, expand_loop, dict_lookup, h1]

/-- The failure of Scenario C concretely: `y` is reached from the seed `x`,
is not a config key, and the run errors with a message naming a missing
identifier. -/
theorem expand_bundles_undefined_fails_witness :
    ∃ e, expand_bundles ["x"] cfg_undef = .error e
      ∧ ∃ m, e = .exit 1 ("There is no bundle called " ++ m)
        ∧ dict_lookup cfg_undef.bundles m = none :=
  expand_bundles_undefined_fails.1 cfg_undef ["x"] "y"
    (Reached.step (Reached.seed (by simp))
      (show dict_lookup cfg_undef.bundles "x" = some ⟨["#y"], none⟩ by decide)
      (by decide))
    (by decide)

instance {ε α : Type} [DecidableEq ε] [DecidableEq α] : DecidableEq (Except ε α) :=
  fun x y =>
  match x, y with
  | .ok a, .ok b =>
      if h : a = b then .isTrue (h ▸ rfl)
      else .isFalse (fun hc => h (Except.ok.inj hc))
  | .error a, .error b =>
      if h : a = b then .isTrue (h ▸ rfl)
      else .isFalse (fun hc => h (Except.error.inj hc))
  | .ok _, .error _ => .isFalse Except.noConfusion
  | .error _, .ok _ => .isFalse Except.noConfusion

/-- Discriminates the two failure shapes of the code: a raised, printed
`typer.Exit` versus an uncaught `KeyError`. -/
def is_exit_err : Err → Bool
  | .exit _ _ => true
  | .keyError _ => false

/-- C5: on the Scenario A config, expanding the seed `{"base"}` and
materializing the resulting closure yields exactly
`{"git", "vim", "gcc", "make"}`. -/
theorem scenario_a_materialization :
    (expand_bundles ["base"] cfg_scenario_a).bind
        (fun names => materialize names cfg_scenario_a groups_scenario_a)
      = .ok {"git", "vim", "gcc", "make"} := by
  have h1 : bundle_member_names ⟨["git", "#editors"], none⟩ = ["editors"] := by decide
  have h2 : bundle_member_names ⟨["vim", "g#devtools"], none⟩ = [] := by decide
  have hexp : expand_bundles ["base"] cfg_scenario_a = .ok ["editors", "base"] := by
    simp [cfg_scenario_a, expand_bundles, expand_loop, dict_lookup, h1, h2]
  rw [hexp]
  show materialize ["editors", "base"] cfg_scenario_a groups_scenario_a = _
  decide

/-- C2: materialization of a bundle holding a Group member whose stripped
name is missing from the group map does abort with no partial result and the
error does carry the missing identifier, but NOT in the shape of the
unknown-bundle error of expansion: the source prints the message and builds
`typer.Exit(1)` without `raise`, so what escapes is the `KeyError` of the
following `pacman_groups()[group_name]` subscript, while unknown-bundle
expansion raises a clean `typer.Exit(1)`. -/
theorem get_packages_unknown_group_shape :
    get_packages ⟨["g#nosuch"], none⟩ [] = .error (.keyError "nosuch")
    ∧ is_exit_err (.keyError "nosuch") = false
    ∧ expand_bundles ["nosuch"] ⟨[], {}⟩
        = .error (.exit 1 "There is no bundle called nosuch")
    ∧ is_exit_err (.exit 1 "There is no bundle called nosuch") = true := by
  refine ⟨by decide, rfl, ?_, rfl⟩
  simp [expand_bundles, expand_loop, dict_lookup]

/-- C10: the plan computed by `install <bundle>` is determined by the config,
the bundle name, and the `pacman` snapshots (groups, explicit, installed)
alone: two environments that agree on those but give the `include` commands
arbitrarily different shell exit codes produce identical plans — the code
path never evaluates `Bundle.is_included`. -/
theorem install_bundle_ignores_inclusion (cfg : Config) (name : String)
    (env1 env2 : Env) (hg : env1.groups = env2.groups)
    (he : env1.explicit = env2.explicit) (hi : env1.installed = env2.installed) :
    install_bundle_plan cfg name env1 = install_bundle_plan cfg name env2 := by
  unfold install_bundle_plan
  rw [hg, he, hi]

/-- An include-evaluation environment answering exit code 0 everywhere. -/
def env_all_zero : Env := ⟨fun _ => 0, groups_scenario_a, ∅, ∅⟩

/-- The same snapshots with every include command failing (exit code 1). -/
def env_all_one : Env := ⟨fun _ => 1, groups_scenario_a, ∅, ∅⟩

/-- The install plan for `base` under Scenario A snapshots is the same
whether every include command succeeds or every include command fails. -/
theorem install_bundle_ignores_inclusion_witness :
    install_bundle_plan cfg_scenario_a "base" env_all_zero
      = install_bundle_plan cfg_scenario_a "base" env_all_one :=
  install_bundle_ignores_inclusion cfg_scenario_a "base" env_all_zero env_all_one
    rfl rfl rfl

/-- The partition laws applied to the concrete Scenario D sets:
`to_mark_dependency = actual_explicit - desired`. -/
theorem sync_plan_partition_laws_witness :
    (sync_plan {"git", "vim"} {"vim", "emacs"} {"vim", "emacs", "git"}).2.2
      = {"vim", "emacs"} \ {"git", "vim"} :=
  (sync_plan_partition_laws {"git", "vim"} {"vim", "emacs"}
    {"vim", "emacs", "git"}).2.2.2.2.1

/-- `compare` concretely: a one-package discrepancy exits 10 and agreement
exits 0. -/
theorem compare_exit_code_spec_witness :
    compare_exit_code {"git"} ∅ = 10 ∧ compare_exit_code ∅ ∅ = 0 :=
  ⟨(compare_exit_code_spec {"git"} ∅).1.mpr
      ⟨"git", Or.inl ⟨Finset.mem_singleton_self "git", Finset.not_mem_empty "git"⟩⟩,
   (compare_exit_code_spec ∅ ∅).2 rfl⟩

/-- Idempotence applied to concrete sets: desired `{git}` against explicit
`{vim}` with nothing installed. -/
theorem sync_plan_idempotent_witness :
    sync_plan {"git"}
      (({"vim"} \ (sync_plan {"git"} {"vim"} ∅).2.2
        ∪ (sync_plan {"git"} {"vim"} ∅).1)
        ∪ (sync_plan {"git"} {"vim"} ∅).2.1)
      (∅ ∪ (sync_plan {"git"} {"vim"} ∅).1)
    = (∅, ∅, ∅) :=
  sync_plan_idempotent {"git"} {"vim"} ∅
